import Mathlib

/-
Verification of the in-memory task store of `app/main.py`.

The store is the module-level dictionary `tasks_store : Dict[str, Dict]`.
We embed it as an association list from task identifiers to task records,
mirroring Python dict semantics: assignment replaces an existing key in
place (keeping its position) or appends a fresh key at the end, `del`
removes the key, `in` tests membership, and iteration follows insertion
order.  Timestamps (`time.time()`) are modelled as an abstract integer
passed in by the caller; JSON-ish payload values are modelled by `JVal`.
-/

/-- JSON-like values stored in the opaque `data` payload and in `result`. -/
inductive JVal where
  | num : Int → JVal
  | str : String → JVal
deriving DecidableEq, Repr

/-- Python `Dict[str, Any]`, as an association list of string keys. -/
abbrev Dict : Type := List (String × JVal)

/-- Lookup of a key in a Python dict (`d.get(key)` / `d[key]`). -/
def dictLookup : Dict → String → Option JVal
  | [], _ => none
  | (k, v) :: rest, key => if k = key then some v else dictLookup rest key

/-- One value of `tasks_store`: the record built by `create_task` and
mutated by `process_task`. -/
structure TaskRecord where
  status : String
  data : Dict
  priority : Int
  created_at : Int
  result : Option Dict
deriving DecidableEq, Repr

/-- The module-level `tasks_store`, keyed by `task_id`, in insertion order. -/
abbrev Store : Type := List (String × TaskRecord)

/-- `tasks_store[task_id]` / `task_id in tasks_store` (first matching key). -/
def storeLookup : Store → String → Option TaskRecord
  | [], _ => none
  | (k, v) :: rest, tid => if k = tid then some v else storeLookup rest tid

/-- `task_id in tasks_store`. -/
def containsKey (s : Store) (tid : String) : Bool :=
  (storeLookup s tid).isSome

/-- `tasks_store[task_id] = rec`: replace the existing entry in place
(Python dicts keep the original position of an updated key) or append a
fresh key at the end. -/
def storeInsert : Store → String → TaskRecord → Store
  | [], tid, rec => [(tid, rec)]
  | (k, v) :: rest, tid, rec =>
      if k = tid then (tid, rec) :: rest else (k, v) :: storeInsert rest tid rec

/-- `del tasks_store[task_id]`. -/
def storeErase : Store → String → Store
  | [], _ => []
  | (k, v) :: rest, tid =>
      if k = tid then storeErase rest tid else (k, v) :: storeErase rest tid

/-- The keys of the store, in iteration order. -/
def storeKeys (s : Store) : List String :=
  s.map Prod.fst

/-- Python dicts have no duplicate keys; every reachable store satisfies this. -/
def keysNodup (s : Store) : Prop :=
  (storeKeys s).Nodup

/-- Number of entries of the store carrying a given key. -/
def countKey (s : Store) (tid : String) : Nat :=
  (storeKeys s).count tid

/-- The `TaskResponse` pydantic model (`result` defaults to `None`). -/
structure TaskResponse where
  task_id : String
  status : String
  message : String
  result : Option Dict
deriving DecidableEq, Repr

/-- An `HTTPException(status_code=..., detail=...)`. -/
structure HTTPError where
  status_code : Nat
  detail : String
deriving DecidableEq, Repr

/-- The only error the task endpoints raise. -/
def taskNotFound : HTTPError :=
  { status_code := 404, detail := "Task not found" }

/-- The record stored by `create_task`:
`{"status": "pending", "data": task.data, "priority": task.priority,
"created_at": time.time()}` with no `result` key. -/
def newTaskRecord (data : Dict) (priority : Int) (now : Int) : TaskRecord :=
  { status := "pending", data := data, priority := priority,
    created_at := now, result := none }

/-- `POST /tasks` (`create_task`): stores the new record under `task.task_id`
and acknowledges with status `"accepted"`.  The background scheduling of
`process_task` is modelled separately by applying `process_task` later. -/
def create_task (s : Store) (task_id : String) (data : Dict)
    (priority : Int) (now : Int) : Store × TaskResponse :=
  (storeInsert s task_id (newTaskRecord data priority now),
   { task_id := task_id, status := "accepted",
     message := "Task created successfully", result := none })

/-- `GET /tasks/{task_id}` (`get_task`): 404 when the id is absent, else the
stored status and stored `result` (`task_data.get("result")`).  The handler
never mutates `tasks_store`, so the embedding is a pure function of it. -/
def get_task (s : Store) (task_id : String) : Except HTTPError TaskResponse :=
  match storeLookup s task_id with
  | none => .error taskNotFound
  | some td =>
      .ok { task_id := task_id, status := td.status,
            message := "Task retrieved successfully", result := td.result }

/-- `DELETE /tasks/{task_id}` (`delete_task`): 404 (store untouched) when the
id is absent, else removes the entry and returns the success message. -/
def delete_task (s : Store) (task_id : String) : Store × Except HTTPError String :=
  if containsKey s task_id then
    (storeErase s task_id, .ok "Task deleted successfully")
  else
    (s, .error taskNotFound)

/-- One row of the `GET /tasks` listing: `{"task_id": tid, **data}`. -/
structure TaskEntry where
  task_id : String
  status : String
  data : Dict
  priority : Int
  created_at : Int
  result : Option Dict
deriving DecidableEq, Repr

/-- Flattening of a stored pair into a listing row. -/
def entryOf (tid : String) (r : TaskRecord) : TaskEntry :=
  { task_id := tid, status := r.status, data := r.data,
    priority := r.priority, created_at := r.created_at, result := r.result }

/-- `GET /tasks` (`list_tasks`): every stored entry in iteration order,
plus `len(tasks_store)`. -/
def list_tasks (s : Store) : List TaskEntry × Nat :=
  (s.map (fun p => entryOf p.1 p.2), s.length)

/-- The dict assigned to `tasks_store[task_id]["result"]` by `process_task`:
`{"processed_at": time.time(), "message": "Task completed successfully"}`. -/
def completionResult (now : Int) : Dict :=
  [("processed_at", JVal.num now), ("message", JVal.str "Task completed successfully")]

/-- The completion step (`process_task`, after its 2-second sleep): if the id
is still present, set `status` to `"completed"` and `result` to the
completion dict; otherwise do nothing. -/
def process_task (s : Store) (task_id : String) (now : Int) : Store :=
  match storeLookup s task_id with
  | some rec =>
      storeInsert s task_id
        { rec with status := "completed", result := some (completionResult now) }
  | none => s

/-- Stores reachable from the initial empty `tasks_store` by the mutating
operations (`get_task` and `list_tasks` never mutate the store). -/
inductive Reachable : Store → Prop where
  | init : Reachable []
  | create (s : Store) (tid : String) (d : Dict) (p now : Int) :
      Reachable s → Reachable (create_task s tid d p now).1
  | delete (s : Store) (tid : String) :
      Reachable s → Reachable (delete_task s tid).1
  | process (s : Store) (tid : String) (now : Int) :
      Reachable s → Reachable (process_task s tid now)

/-- The record-level invariant of the spec: `result` is present and
non-empty exactly when `status` is `"completed"`. -/
def recordInv (r : TaskRecord) : Prop :=
  (∃ m, r.result = some m ∧ m ≠ []) ↔ r.status = "completed"

/-- The invariant over every stored record. -/
def storeInv (s : Store) : Prop :=
  ∀ p ∈ s, recordInv p.2

/-! ### Basic store lemmas -/

theorem storeLookup_insert_self (s : Store) (k : String) (r : TaskRecord) :
    storeLookup (storeInsert s k r) k = some r := by
  induction s with
  | nil => simp [storeInsert, storeLookup]
  | cons p rest ih =>
      obtain ⟨a, v⟩ := p
      by_cases h : a = k
      · simp [storeInsert, h, storeLookup]
      · simp [storeInsert, h, storeLookup, ih]

theorem storeLookup_insert_ne (s : Store) (k k' : String) (r : TaskRecord)
    (h : k' ≠ k) : storeLookup (storeInsert s k r) k' = storeLookup s k' := by
  induction s with
  | nil => simp [storeInsert, storeLookup, Ne.symm h]
  | cons p rest ih =>
      obtain ⟨a, v⟩ := p
      by_cases ha : a = k
      · subst ha
        simp [storeInsert, storeLookup, Ne.symm h]
      · simp [storeInsert, ha, storeLookup, ih]

theorem storeLookup_erase_self (s : Store) (k : String) :
    storeLookup (storeErase s k) k = none := by
  induction s with
  | nil => simp [storeErase, storeLookup]
  | cons p rest ih =>
      obtain ⟨a, v⟩ := p
      by_cases h : a = k
      · simpa [storeErase, h] using ih
      · simpa [storeErase, h, storeLookup] using ih

theorem storeLookup_erase_ne (s : Store) (k k' : String) (h : k' ≠ k) :
    storeLookup (storeErase s k) k' = storeLookup s k' := by
  induction s with
  | nil => simp [storeErase, storeLookup]
  | cons p rest ih =>
      obtain ⟨a, v⟩ := p
      by_cases ha : a = k
      · subst ha
        simpa [storeErase, storeLookup, Ne.symm h] using ih
      · simp [storeErase, ha, storeLookup, ih]

theorem storeLookup_mem (s : Store) (k : String) (r : TaskRecord)
    (h : storeLookup s k = some r) : (k, r) ∈ s := by
  induction s with
  | nil => simp [storeLookup] at h
  | cons p rest ih =>
      obtain ⟨a, v⟩ := p
      by_cases ha : a = k
      · subst ha
        simp [storeLookup] at h
        simp [h]
      · simp [storeLookup, ha] at h
        exact List.mem_cons_of_mem _ (ih h)

theorem mem_storeKeys_iff (s : Store) (k : String) :
    k ∈ storeKeys s ↔ (storeLookup s k).isSome := by
  induction s with
  | nil => simp [storeKeys, storeLookup]
  | cons p rest ih =>
      obtain ⟨a, v⟩ := p
      by_cases ha : a = k
      · simp [storeKeys, storeLookup, ha]
      · simp [storeKeys, storeLookup, ha, Ne.symm ha] at ih ⊢
        exact ih

theorem storeKeys_insert (s : Store) (k : String) (r : TaskRecord) :
    storeKeys (storeInsert s k r) =
      if (storeLookup s k).isSome then storeKeys s else storeKeys s ++ [k] := by
  induction s with
  | nil => simp [storeInsert, storeKeys, storeLookup]
  | cons p rest ih =>
      obtain ⟨a, v⟩ := p
      by_cases ha : a = k
      · simp [storeInsert, ha, storeKeys, storeLookup]
      · by_cases hc : (storeLookup rest k).isSome
        · simp [storeInsert, ha, storeKeys, storeLookup, hc] at ih ⊢
          exact ih
        · simp [storeInsert, ha, storeKeys, storeLookup, hc] at ih ⊢
          exact ih

theorem keysNodup_insert (s : Store) (k : String) (r : TaskRecord)
    (h : keysNodup s) : keysNodup (storeInsert s k r) := by
  unfold keysNodup at h ⊢
  rw [storeKeys_insert]
  by_cases hc : (storeLookup s k).isSome
  · simpa [hc] using h
  · have hk : k ∉ storeKeys s := by
      rw [mem_storeKeys_iff]
      simp [hc]
    simp [hc, List.nodup_append, h, hk]

theorem storeErase_sublist (s : Store) (k : String) :
    (storeErase s k).Sublist s := by
  induction s with
  | nil => simp [storeErase]
  | cons p rest ih =>
      obtain ⟨a, v⟩ := p
      by_cases ha : a = k
      · simpa [storeErase, ha] using ih.cons (a, v)
      · simpa [storeErase, ha] using ih.cons₂ (a, v)

theorem keysNodup_erase (s : Store) (k : String) (h : keysNodup s) :
    keysNodup (storeErase s k) := by
  unfold keysNodup storeKeys at h ⊢
  exact List.Nodup.sublist ((storeErase_sublist s k).map Prod.fst) h

theorem countKey_insert_nodup (s : Store) (k : String) (r : TaskRecord)
    (h : keysNodup s) : countKey (storeInsert s k r) k = 1 := by
  unfold countKey
  have hmem : k ∈ storeKeys (storeInsert s k r) := by
    rw [mem_storeKeys_iff, storeLookup_insert_self]
    rfl
  exact List.count_eq_one_of_mem (keysNodup_insert s k r h) hmem

/-! ### Invariant preservation -/

theorem recordInv_new (d : Dict) (p now : Int) :
    recordInv (newTaskRecord d p now) := by
  constructor
  · rintro ⟨m, hm, -⟩
    simp [newTaskRecord] at hm
  · intro h
    simp [newTaskRecord] at h

theorem recordInv_completed (r : TaskRecord) (now : Int) :
    recordInv { r with status := "completed", result := some (completionResult now) } := by
  constructor
  · intro _
    rfl
  · intro _
    exact ⟨completionResult now, rfl, by simp [completionResult]⟩

theorem storeInv_insert (s : Store) (k : String) (r : TaskRecord)
    (hs : storeInv s) (hr : recordInv r) : storeInv (storeInsert s k r) := by
  induction s with
  | nil =>
      intro p hp
      simp [storeInsert] at hp
      simp [hp, hr]
  | cons q rest ih =>
      obtain ⟨a, v⟩ := q
      intro p hp
      by_cases ha : a = k
      · simp [storeInsert, ha] at hp
        rcases hp with hp | hp
        · simp [hp, hr]
        · exact hs p (List.mem_cons_of_mem _ hp)
      · simp only [storeInsert, if_neg ha, List.mem_cons] at hp
        rcases hp with hp | hp
        · exact hp ▸ hs (a, v) (List.mem_cons_self _ _)
        · exact ih (fun q hq => hs q (List.mem_cons_of_mem _ hq)) p hp

theorem storeInv_erase (s : Store) (k : String) (hs : storeInv s) :
    storeInv (storeErase s k) :=
  fun p hp => hs p ((storeErase_sublist s k).subset hp)

/-- C1: in every reachable store, a record's `result` is present and
non-empty exactly when its `status` is `"completed"`; the invariant is
preserved by create, delete and the completion step (`get_task` and
`list_tasks` are pure readers of the store, so they preserve it trivially). -/
theorem reachable_storeInv (s : Store) (h : Reachable s) : storeInv s := by
  induction h with
  | init =>
      intro p hp
      simp at hp
  | create s tid d pr now _ ih =>
      exact storeInv_insert s tid _ ih (recordInv_new d pr now)
  | delete s tid _ ih =>
      unfold delete_task
      by_cases hc : containsKey s tid
      · simpa [hc] using storeInv_erase s tid ih
      · simpa [hc] using ih
  | process s tid now _ ih =>
      unfold process_task
      cases hl : storeLookup s tid with
      | none => simpa using ih
      | some rec => exact storeInv_insert s tid _ ih (recordInv_completed rec now)

/-- Witness for C1 at a concrete reachable store. -/
theorem reachable_storeInv_witness :
    storeInv (create_task [] "t1" [] 1 0).1 :=
  reachable_storeInv _ (Reachable.create [] "t1" [] 1 0 Reachable.init)

/-- C2: creating a task with a valid (non-empty) id and immediately fetching
it, before the completion step has run, yields status `"pending"` and no
`result`. -/
theorem create_then_get_pending (s : Store) (tid : String) (h : tid ≠ "")
    (d : Dict) (p now : Int) :
    get_task (create_task s tid d p now).1 tid =
      .ok { task_id := tid, status := "pending",
            message := "Task retrieved successfully", result := none } := by
  have hl : storeLookup (create_task s tid d p now).1 tid =
      some (newTaskRecord d p now) := storeLookup_insert_self s tid _
  simp [get_task, hl, newTaskRecord]

/-- Witness for C2 at a concrete input. -/
theorem create_then_get_pending_witness :
    "t1" ≠ "" ∧
    get_task (create_task [] "t1" [] 1 0).1 "t1" =
      .ok { task_id := "t1", status := "pending",
            message := "Task retrieved successfully", result := none } :=
  ⟨by decide, create_then_get_pending [] "t1" (by decide) [] 1 0⟩

/-- C4: when the id is absent, the completion step leaves the store entirely
unchanged and a subsequent fetch still yields the 404 error. -/
theorem process_task_absent (s : Store) (tid : String) (now : Int)
    (h : storeLookup s tid = none) :
    process_task s tid now = s ∧
    get_task (process_task s tid now) tid = .error taskNotFound := by
  have h1 : process_task s tid now = s := by simp [process_task, h]
  exact ⟨h1, by simp [h1, get_task, h]⟩

/-- Witness for C4 at a concrete input. -/
theorem process_task_absent_witness :
    process_task [] "t1" 7 = [] ∧
    get_task (process_task [] "t1" 7) "t1" = .error taskNotFound :=
  process_task_absent [] "t1" 7 rfl

/-- C5: `get_task` fails with 404 exactly when the id is absent, and when
present returns the stored status and stored `result`; it is a pure function
of the store, so the store is unchanged in every case. -/
theorem get_task_spec (s : Store) (tid : String) :
    (get_task s tid = .error taskNotFound ↔ storeLookup s tid = none) ∧
    ∀ r, storeLookup s tid = some r →
      get_task s tid =
        .ok { task_id := tid, status := r.status,
              message := "Task retrieved successfully", result := r.result } := by
  constructor
  · cases hl : storeLookup s tid with
    | none => simp [get_task, hl]
    | some r => simp [get_task, hl]
  · intro r hr
    simp [get_task, hr]

/-- Witness for C5 at a concrete input. -/
theorem get_task_spec_witness :
    get_task [("t1", newTaskRecord [] 1 0)] "t1" =
      .ok { task_id := "t1", status := "pending",
            message := "Task retrieved successfully", result := none } :=
  (get_task_spec [("t1", newTaskRecord [] 1 0)] "t1").2 (newTaskRecord [] 1 0) rfl

/-- C8: `create_task` is total (every input is accepted, no duplicate-id
error), its acknowledgement always reports status `"accepted"` with the
fixed message, while the stored record's status is `"pending"`. -/
theorem create_task_ack (s : Store) (tid : String) (d : Dict) (p now : Int) :
    (create_task s tid d p now).2 =
      { task_id := tid, status := "accepted",
        message := "Task created successfully", result := none } ∧
    storeLookup (create_task s tid d p now).1 tid = some (newTaskRecord d p now) ∧
    (newTaskRecord d p now).status = "pending" :=
  ⟨rfl, storeLookup_insert_self s tid _, rfl⟩

/-- C6: `delete_task` removes the record exactly when the id is present (a
following fetch yields the 404 error) and fails with 404, store unchanged,
when absent. -/
theorem delete_task_spec (s : Store) (tid : String) :
    (containsKey s tid = true →
       (delete_task s tid).1 = storeErase s tid ∧
       (delete_task s tid).2 = .ok "Task deleted successfully" ∧
       storeLookup (delete_task s tid).1 tid = none ∧
       get_task (delete_task s tid).1 tid = .error taskNotFound) ∧
    (containsKey s tid = false →
       delete_task s tid = (s, .error taskNotFound)) := by
  constructor
  · intro hc
    refine ⟨by simp [delete_task, hc], by simp [delete_task, hc], ?_, ?_⟩
    · simp [delete_task, hc, storeLookup_erase_self]
    · simp [delete_task, hc, get_task, storeLookup_erase_self]
  · intro hc
    simp [delete_task, hc]

/-- Witness for C6 at concrete inputs: one present id, one absent id. -/
theorem delete_task_spec_witness :
    get_task (delete_task [("t1", newTaskRecord [] 1 0)] "t1").1 "t1" =
      .error taskNotFound ∧
    delete_task [] "t1" = ([], .error taskNotFound) :=
  ⟨((delete_task_spec [("t1", newTaskRecord [] 1 0)] "t1").1 rfl).2.2.2,
   (delete_task_spec [] "t1").2 rfl⟩

/-- C7: creating twice under the same id (on a store with Python-dict key
uniqueness) leaves exactly one entry for that id, holding the second
creation's data and priority, with status `"pending"` and no `result`. -/
theorem create_twice_overwrite (s : Store) (tid : String) (hs : keysNodup s)
    (d1 d2 : Dict) (p1 p2 t1 t2 : Int) :
    countKey (create_task (create_task s tid d1 p1 t1).1 tid d2 p2 t2).1 tid = 1 ∧
    storeLookup (create_task (create_task s tid d1 p1 t1).1 tid d2 p2 t2).1 tid =
      some (newTaskRecord d2 p2 t2) := by
  constructor
  · exact countKey_insert_nodup _ tid _ (keysNodup_insert s tid _ hs)
  · exact storeLookup_insert_self _ tid _

/-- Witness for C7 at a concrete input. -/
theorem create_twice_overwrite_witness :
    countKey (create_task (create_task [] "t1" [] 1 0).1 "t1"
      [("x", JVal.num 2)] 9 3).1 "t1" = 1 ∧
    storeLookup (create_task (create_task [] "t1" [] 1 0).1 "t1"
      [("x", JVal.num 2)] 9 3).1 "t1" =
      some (newTaskRecord [("x", JVal.num 2)] 9 3) :=
  create_twice_overwrite [] "t1" List.nodup_nil [] [("x", JVal.num 2)] 1 9 0 3

/-- C10: when the completion step mutates a still-present task, the mutated
record keeps its `data`, `priority` and `created_at`, only `status` and
`result` change, and every other id's lookup result is untouched. -/
theorem process_task_frame (s : Store) (tid : String) (r : TaskRecord)
    (now : Int) (h : storeLookup s tid = some r) :
    storeLookup (process_task s tid now) tid =
      some { status := "completed", data := r.data, priority := r.priority,
             created_at := r.created_at, result := some (completionResult now) } ∧
    ∀ tid2, tid2 ≠ tid →
      storeLookup (process_task s tid now) tid2 = storeLookup s tid2 := by
  constructor
  · simp [process_task, h, storeLookup_insert_self]
  · intro tid2 h2
    simp [process_task, h, storeLookup_insert_ne s tid tid2 _ h2]

/-- Witness for C10 at a concrete input. -/
theorem process_task_frame_witness :
    storeLookup (process_task [("t1", newTaskRecord [("x", JVal.num 1)] 5 0)] "t1" 7) "t1" =
      some { status := "completed", data := [("x", JVal.num 1)], priority := 5,
             created_at := 0, result := some (completionResult 7) } ∧
    ∀ tid2, tid2 ≠ "t1" →
      storeLookup (process_task [("t1", newTaskRecord [("x", JVal.num 1)] 5 0)] "t1" 7) tid2 =
        storeLookup [("t1", newTaskRecord [("x", JVal.num 1)] 5 0)] tid2 :=
  process_task_frame [("t1", newTaskRecord [("x", JVal.num 1)] 5 0)] "t1"
    (newTaskRecord [("x", JVal.num 1)] 5 0) 7 rfl

/-- C3 counterexample: for a concretely present task, the completion step
stores the completion timestamp under the key `"processed_at"`; the dict it
stores has NO key `"completed_at"`, so the claim as stated fails. -/
theorem process_task_completed_at_cex :
    ¬ (∃ r m,
        storeLookup (process_task [("t1", newTaskRecord [] 1 0)] "t1" 5) "t1" = some r ∧
        r.result = some m ∧
        dictLookup m "completed_at" = some (JVal.num 5) ∧
        dictLookup m "message" = some (JVal.str "Task completed successfully")) := by
  rintro ⟨r, m, hr, hm, hk, -⟩
  have heval : storeLookup (process_task [("t1", newTaskRecord [] 1 0)] "t1" 5) "t1" =
      some { status := "completed", data := [], priority := 1,
             created_at := 0, result := some (completionResult 5) } := by decide
  rw [heval] at hr
  injection hr with hr
  rw [← hr] at hm
  simp [completionResult] at hm
  rw [← hm] at hk
  exact absurd hk (by decide)

/-- C3 (amended): for every task present when the completion step runs, the
step sets the status to `"completed"` and the result to a mapping whose key
`"processed_at"` (not `"completed_at"`) holds the completion timestamp and
whose key `"message"` holds `"Task completed successfully"`. -/
theorem process_task_completes (s : Store) (tid : String) (r : TaskRecord)
    (now : Int) (h : storeLookup s tid = some r) :
    ∃ r', storeLookup (process_task s tid now) tid = some r' ∧
      r'.status = "completed" ∧
      r'.result = some (completionResult now) ∧
      dictLookup (completionResult now) "processed_at" = some (JVal.num now) ∧
      dictLookup (completionResult now) "message" =
        some (JVal.str "Task completed successfully") := by
  refine ⟨{ r with status := "completed", result := some (completionResult now) },
    ?_, rfl, rfl, ?_, ?_⟩
  · simp [process_task, h, storeLookup_insert_self]
  · simp [completionResult, dictLookup]
  · simp [completionResult, dictLookup]

/-- Witness for the amended C3 at a concrete input. -/
theorem process_task_completes_witness :
    ∃ r', storeLookup (process_task [("t1", newTaskRecord [] 1 0)] "t1" 5) "t1" = some r' ∧
      r'.status = "completed" ∧
      r'.result = some (completionResult 5) ∧
      dictLookup (completionResult 5) "processed_at" = some (JVal.num 5) ∧
      dictLookup (completionResult 5) "message" =
        some (JVal.str "Task completed successfully") :=
  process_task_completes [("t1", newTaskRecord [] 1 0)] "t1" (newTaskRecord [] 1 0) 5 rfl

/-! ### Listing support -/

/-- Folding `create_task` over a list of ids (payload, priority and
timestamp held fixed). -/
def createMany (s : Store) (ids : List String) (d : Dict) (p now : Int) : Store :=
  ids.foldl (fun acc tid => (create_task acc tid d p now).1) s

theorem storeErase_of_not_mem (s : Store) (k : String)
    (h : storeLookup s k = none) : storeErase s k = s := by
  induction s with
  | nil => rfl
  | cons q rest ih =>
      obtain ⟨a, v⟩ := q
      by_cases ha : a = k
      · simp [storeLookup, ha] at h
      · simp only [storeLookup, if_neg ha] at h
        simp [storeErase, ha, ih h]

theorem storeErase_length (s : Store) (k : String) (hs : keysNodup s)
    (h : (storeLookup s k).isSome) :
    (storeErase s k).length = s.length - 1 := by
  induction s with
  | nil => simp [storeLookup] at h
  | cons q rest ih =>
      obtain ⟨a, v⟩ := q
      have hs' : a ∉ storeKeys rest ∧ keysNodup rest := by
        rw [keysNodup, storeKeys] at hs
        simpa [keysNodup, storeKeys] using List.nodup_cons.mp hs
      by_cases ha : a = k
      · subst ha
        have hnone : storeLookup rest a = none := by
          cases hl : storeLookup rest a with
          | none => rfl
          | some r =>
              exact absurd ((mem_storeKeys_iff rest a).mpr (by simp [hl])) hs'.1
        simp [storeErase, storeErase_of_not_mem rest a hnone]
      · have hrest : (storeLookup rest k).isSome := by
          simpa [storeLookup, ha] using h
        have hpos : 0 < rest.length := by
          obtain ⟨r, hr⟩ := Option.isSome_iff_exists.mp hrest
          have := storeLookup_mem rest k r hr
          exact List.length_pos_of_mem this
        have := ih hs'.2 hrest
        simp only [storeErase, if_neg ha, List.length_cons, this]
        omega

theorem storeKeys_createMany (ids : List String) (d : Dict) (p now : Int) :
    ∀ s : Store, (∀ tid ∈ ids, tid ∉ storeKeys s) → ids.Nodup →
      storeKeys (createMany s ids d p now) = storeKeys s ++ ids := by
  induction ids with
  | nil =>
      intro s _ _
      simp [createMany]
  | cons id1 rest ih =>
      intro s hdis hnd
      obtain ⟨hid1, hndrest⟩ := List.nodup_cons.mp hnd
      have hid : id1 ∉ storeKeys s := hdis id1 (List.mem_cons_self _ _)
      have hlook : storeLookup s id1 = none := by
        cases hl : storeLookup s id1 with
        | none => rfl
        | some r => exact absurd ((mem_storeKeys_iff s id1).mpr (by simp [hl])) hid
      have hkeys : storeKeys (create_task s id1 d p now).1 = storeKeys s ++ [id1] := by
        simp [create_task, storeKeys_insert, hlook]
      have hdis' : ∀ tid ∈ rest, tid ∉ storeKeys (create_task s id1 d p now).1 := by
        intro tid htid
        rw [hkeys]
        simp only [List.mem_append, List.mem_singleton]
        rintro (hmem | rfl)
        · exact hdis tid (List.mem_cons_of_mem _ htid) hmem
        · exact hid1 htid
      have hstep : createMany s (id1 :: rest) d p now =
          createMany (create_task s id1 d p now).1 rest d p now := rfl
      rw [hstep, ih _ hdis' hndrest, hkeys]
      simp

theorem length_eq_storeKeys_length (s : Store) :
    s.length = (storeKeys s).length := by
  simp [storeKeys]

theorem list_filter_key (s : Store) (k : String) (r : TaskRecord)
    (hs : keysNodup s) (h : storeLookup s k = some r) :
    (list_tasks s).1.filter (fun e => e.task_id == k) = [entryOf k r] := by
  induction s with
  | nil => simp [storeLookup] at h
  | cons q rest ih =>
      obtain ⟨a, v⟩ := q
      have hs' : a ∉ storeKeys rest ∧ keysNodup rest := by
        rw [keysNodup, storeKeys] at hs
        simpa [keysNodup, storeKeys] using List.nodup_cons.mp hs
      by_cases ha : a = k
      · subst ha
        have hv : v = r := by
          simpa [storeLookup] using h
        subst hv
        have hnil : (list_tasks rest).1.filter (fun e => e.task_id == a) = [] := by
          rw [List.filter_eq_nil_iff]
          intro e he
          simp only [list_tasks, List.mem_map] at he
          obtain ⟨⟨b, w⟩, hbw, rfl⟩ := he
          have : b ∈ storeKeys rest := List.mem_map_of_mem Prod.fst hbw
          simp only [entryOf, beq_iff_eq]
          intro hba
          exact hs'.1 (hba ▸ this)
        simp [list_tasks, List.filter_cons, entryOf] at hnil ⊢
        exact hnil
      · have hrest : storeLookup rest k = some r := by
          simpa [storeLookup, ha] using h
        have := ih hs'.2 hrest
        simp only [list_tasks, List.map_cons, List.filter_cons] at this ⊢
        have hne : ((entryOf a v).task_id == k) = false := by
          simp [entryOf, ha]
        rw [hne]
        simpa using this

/-- C9: the listing returns every stored record exactly once (identifier
plus all stored fields) with `count` equal to the number of stored records;
creating N distinct ids into the empty store then listing gives count N,
and deleting one of them gives count N-1. -/
theorem list_tasks_spec (s : Store) (hs : keysNodup s)
    (ids : List String) (hids : ids.Nodup) (tid : String) (htid : tid ∈ ids)
    (d : Dict) (p now : Int) :
    ((list_tasks s).2 = s.length ∧
     ∀ k r, storeLookup s k = some r →
       (list_tasks s).1.filter (fun e => e.task_id == k) = [entryOf k r]) ∧
    (list_tasks (createMany [] ids d p now)).2 = ids.length ∧
    (list_tasks (delete_task (createMany [] ids d p now) tid).1).2 =
      ids.length - 1 := by
  have hkeys : storeKeys (createMany [] ids d p now) = ids := by
    have := storeKeys_createMany ids d p now []
      (by intro tid2 _ h2; simp [storeKeys] at h2) hids
    simpa [storeKeys] using this
  have hlen : (createMany [] ids d p now).length = ids.length := by
    rw [length_eq_storeKeys_length, hkeys]
  have hnodupS : keysNodup (createMany [] ids d p now) := by
    rw [keysNodup, hkeys]
    exact hids
  have hsome : (storeLookup (createMany [] ids d p now) tid).isSome := by
    refine (mem_storeKeys_iff _ tid).mp ?_
    rw [hkeys]
    exact htid
  have hcontains : containsKey (createMany [] ids d p now) tid = true := by
    simpa [containsKey] using hsome
  refine ⟨⟨rfl, fun k r h => list_filter_key s k r hs h⟩, ?_, ?_⟩
  · show (createMany [] ids d p now).length = ids.length
    exact hlen
  · have hdel : (delete_task (createMany [] ids d p now) tid).1 =
        storeErase (createMany [] ids d p now) tid := by
      simp [delete_task, hcontains]
    rw [hdel]
    show (storeErase (createMany [] ids d p now) tid).length = ids.length - 1
    rw [storeErase_length (createMany [] ids d p now) tid hnodupS hsome, hlen]

/-- Witness for C9 at a concrete input (two fresh ids, then one delete). -/
theorem list_tasks_spec_witness :
    (list_tasks (createMany [] ["x", "y"] [] 1 0)).2 = 2 ∧
    (list_tasks (delete_task (createMany [] ["x", "y"] [] 1 0) "x").1).2 = 1 :=
  (list_tasks_spec [] List.nodup_nil ["x", "y"] (by decide) "x" (by decide)
    [] 1 0).2
